import Mathlib

/-
  Verification of the poly-websockets subscription multiplexer.

  The definitions below are a shallow embedding of the TypeScript sources:
    - MarketGroupSocket / UserGroupSocket message and open handlers
      (src/modules/BaseGroupSocket.ts, src/modules/UserGroupSocket.ts)
    - BaseSubscriptionManager option resolution and actOnSubscribedEvents
    - WSSubscriptionManager / UserWSSubscriptionManager filterSubscribedEvents
  The OrderBookCache, GroupRegistry / UserGroupRegistry helper operations and
  the event type guards live in repository files that are not part of the
  sources at hand; those operations are modelled from the specification
  (spec sections 4.1, 4.2 and 6) and are marked `Modelled from the spec:`.
-/

namespace PolyWS

/-- The group status enumeration (types/WebSocketSubscriptions). -/
inductive WebSocketStatus
  | pending
  | alive
  | dead
  | cleanup
deriving DecidableEq, Repr

/-- A decimal price/size string such as "0.605": mantissa `m` with `e`
fractional digits, denoting `m / 10^e`.  Distinct (m, e) pairs correspond to
distinct strings (e.g. "0.7000" is ⟨7000, 4⟩ and "0.7" is ⟨7, 1⟩), so
structural equality of `Dec` models string equality of the source. -/
structure Dec where
  m : Nat
  e : Nat
deriving DecidableEq, Repr

/-- Numeric value of a decimal string. -/
def Dec.toRat (d : Dec) : ℚ := (d.m : ℚ) / (10 : ℚ) ^ d.e

/-- Strip trailing zeros from a mantissa/scale pair, structurally on the
scale. -/
def normalizeAux : Nat → Nat → Dec
  | m, 0 => ⟨m, 0⟩
  | m, e + 1 => if m % 10 = 0 then normalizeAux (m / 10) e else ⟨m, e + 1⟩

/-- `parseFloat(s).toString()` on a decimal string: strip trailing zeros
(the "Ensure no trailing zeros" normalization of handleLastTradeEvents). -/
def Dec.normalize (d : Dec) : Dec := normalizeAux d.m d.e

/-- Value comparison of two decimal strings (cross-multiplied, no division). -/
def Dec.valLt (x y : Dec) : Bool := decide (x.m * 10 ^ y.e < y.m * 10 ^ x.e)

/-- Value equality of two decimal strings. -/
def Dec.valEq (x y : Dec) : Bool := decide (x.m * 10 ^ y.e = y.m * 10 ^ x.e)

/-- One price level of an L2 book. -/
structure Level where
  price : Dec
  size : Dec
deriving DecidableEq, Repr

/-- Side of a price_change delta. -/
inductive Side
  | buy
  | sell
deriving DecidableEq, Repr

/-- A `book` event (market channel). -/
structure BookEventData where
  assetId : String
  timestamp : String
  bids : List Level
  asks : List Level
  hash : String
deriving DecidableEq, Repr

/-- One delta of a `price_change` event. -/
structure PriceLevelDelta where
  price : Dec
  size : Dec
  side : Side
deriving DecidableEq, Repr

/-- A `price_change` event (market channel). -/
structure PriceChangeEventData where
  assetId : String
  timestamp : String
  changes : List PriceLevelDelta
deriving DecidableEq, Repr

/-- A `tick_size_change` event (market channel). -/
structure TickSizeChangeEventData where
  assetId : String
  timestamp : String
  oldTick : Dec
  newTick : Dec
deriving DecidableEq, Repr

/-- A `last_trade_price` event (market channel). -/
structure LastTradePriceEventData where
  assetId : String
  timestamp : String
  price : Dec
  size : Dec
  side : Side
deriving DecidableEq, Repr

/-- A parsed entry of a market frame.  `assetId = ""` models an entry whose
`asset_id` field is missing or empty (lodash `_.size` is 0 for both).
`unknown` models an entry whose `event_type` matches none of the four type
guards. -/
inductive MEvent
  | book (d : BookEventData)
  | priceChange (d : PriceChangeEventData)
  | tickSizeChange (d : TickSizeChangeEventData)
  | lastTradePrice (d : LastTradePriceEventData)
  | unknown (assetId : String) (payload : String)
deriving DecidableEq, Repr

/-- The `asset_id` field of a market event. -/
def MEvent.assetId : MEvent → String
  | .book d => d.assetId
  | .priceChange d => d.assetId
  | .tickSizeChange d => d.assetId
  | .lastTradePrice d => d.assetId
  | .unknown a _ => a

/-- Whether an event falls into no recognized market bucket. -/
def MEvent.isUnknownKind : MEvent → Bool
  | .unknown _ _ => true
  | _ => false

/-- A cached order-book entry (the BookEntry of OrderBookCache): bids descending,
asks ascending, stored derived strings (`none` models the empty string). -/
structure BookEntry where
  bids : List Level
  asks : List Level
  midpoint : Option Dec
  spread : Option Dec
  price : Option Dec
  hash : String
  timestamp : String
deriving DecidableEq, Repr

/-- The asset_id → BookEntry mapping, as an association list. -/
abbrev BookCache := List (String × BookEntry)

/-- Modelled from the spec: OrderBookCache.getBookEntry (OrderBookCache.ts is
not among the given sources) — returns the entry or null. -/
def getBookEntry (c : BookCache) (a : String) : Option BookEntry :=
  (c.find? (fun p => p.1 == a)).map (·.2)

/-- Update-or-insert an entry in the cache. -/
def setBookEntry : BookCache → String → BookEntry → BookCache
  | [], a, ent => [(a, ent)]
  | (b, e0) :: rest, a, ent =>
    if b = a then (a, ent) :: rest else (b, e0) :: setBookEntry rest a ent

/-- Scale a mantissa up to `s` fractional digits (`s ≥ d.e`). -/
def scaleUpTo (d : Dec) (s : Nat) : Nat := d.m * 10 ^ (s - d.e)

/-- Modelled from the spec: midpoint = (bestBid + bestAsk) / 2, re-serialized
without trailing zeros.  Value check: at common scale `s` the sum is
`(b + a) / 10^s`, and `(b + a) * 5 / 10^(s+1)` halves it. -/
def midDec (b a : Dec) : Dec :=
  let s := Nat.max b.e a.e
  Dec.normalize ⟨(scaleUpTo b s + scaleUpTo a s) * 5, s + 1⟩

/-- Modelled from the spec: spread = bestAsk − bestBid as a decimal string
(truncated at zero for a crossed book, which the book invariant excludes). -/
def spreadDecOf (b a : Dec) : Dec :=
  let s := Nat.max b.e a.e
  Dec.normalize ⟨scaleUpTo a s - scaleUpTo b s, s⟩

/-- Modelled from the spec: recompute the stored midpoint/spread strings when
both sides exist, else leave them empty. -/
def computeDerived (bids asks : List Level) : Option Dec × Option Dec :=
  match bids.head?, asks.head? with
  | some b, some a => (some (midDec b.price a.price), some (spreadDecOf b.price a.price))
  | _, _ => (none, none)

/-- Modelled from the spec: OrderBookCache.replaceBook — replace the bids, asks,
hash and timestamp of the entry with the snapshot carried by the event and recompute the derived
strings; the stored `price` (empty for a fresh entry) is preserved. -/
def replaceBook (c : BookCache) (ev : BookEventData) : BookCache :=
  let price0 := match getBookEntry c ev.assetId with
    | some ent => ent.price
    | none => none
  let d := computeDerived ev.bids ev.asks
  setBookEntry c ev.assetId ⟨ev.bids, ev.asks, d.1, d.2, price0, ev.hash, ev.timestamp⟩

/-- Insert or update a level in a price-descending list (bids). -/
def insertBid : List Level → Dec → Dec → List Level
  | [], p, s => [⟨p, s⟩]
  | l :: rest, p, s =>
    if Dec.valLt l.price p then ⟨p, s⟩ :: l :: rest
    else if Dec.valEq l.price p then ⟨p, s⟩ :: rest
    else l :: insertBid rest p s

/-- Insert or update a level in a price-ascending list (asks). -/
def insertAsk : List Level → Dec → Dec → List Level
  | [], p, s => [⟨p, s⟩]
  | l :: rest, p, s =>
    if Dec.valLt p l.price then ⟨p, s⟩ :: l :: rest
    else if Dec.valEq l.price p then ⟨p, s⟩ :: rest
    else l :: insertAsk rest p s

/-- Remove the level at the given price. -/
def removeLevel (ls : List Level) (p : Dec) : List Level :=
  ls.filter (fun l => !(Dec.valEq l.price p))

/-- Modelled from the spec: apply one {price, size, side} delta; size 0
removes its level, otherwise the level is upserted preserving sort order. -/
def applyDelta (ent : BookEntry) (d : PriceLevelDelta) : BookEntry :=
  match d.side with
  | .buy =>
    { ent with bids := if d.size.m = 0 then removeLevel ent.bids d.price
                       else insertBid ent.bids d.price d.size }
  | .sell =>
    { ent with asks := if d.size.m = 0 then removeLevel ent.asks d.price
                       else insertAsk ent.asks d.price d.size }

/-- Failure kinds of the book cache. -/
inductive CacheErr
  | bookNotFound
  | incompleteBook
deriving DecidableEq, Repr

/-- Modelled from the spec: OrderBookCache.upsertPriceChange — apply each
delta and refresh the derived strings; fails with BookNotFound if the asset
has never received a snapshot. -/
def upsertPriceChange (c : BookCache) (ev : PriceChangeEventData) : Except CacheErr BookCache :=
  match getBookEntry c ev.assetId with
  | none => .error .bookNotFound
  | some ent =>
    let ent1 := ev.changes.foldl applyDelta ent
    let d := computeDerived ent1.bids ent1.asks
    .ok (setBookEntry c ev.assetId { ent1 with midpoint := d.1, spread := d.2 })

/-- Modelled from the spec: OrderBookCache.spreadOver — true iff
spread ≥ threshold; fails with BookNotFound or IncompleteBook. -/
def spreadOver (c : BookCache) (a : String) (threshold : ℚ) : Except CacheErr Bool :=
  match getBookEntry c a with
  | none => .error .bookNotFound
  | some ent =>
    match ent.bids.head?, ent.asks.head? with
    | some b, some k => .ok (decide (threshold ≤ k.price.toRat - b.price.toRat))
    | _, _ => .error .incompleteBook

/-- Modelled from the spec: OrderBookCache.midpoint — the current midpoint as
a string; fails with IncompleteBook if either side is empty. -/
def midpointOf (c : BookCache) (a : String) : Except CacheErr Dec :=
  match getBookEntry c a with
  | none => .error .bookNotFound
  | some ent =>
    match ent.bids.head?, ent.asks.head? with
    | some b, some k => .ok (midDec b.price k.price)
    | _, _ => .error .incompleteBook

/-- The event that triggered a synthetic price_update. -/
inductive TriggeringEvent
  | pc (d : PriceChangeEventData)
  | lt (d : LastTradePriceEventData)
deriving DecidableEq, Repr

/-- The synthetic price_update event (PolymarketPriceUpdateEvent): asset_id,
triggering event, timestamp, snapshot of bids/asks, new price, stored
midpoint and spread strings. -/
structure PriceUpdateEvent where
  assetId : String
  trigger : TriggeringEvent
  timestamp : String
  bookBids : List Level
  bookAsks : List Level
  price : Dec
  midpoint : Option Dec
  spread : Option Dec
deriving DecidableEq, Repr

/-- Observable effects of the market message pipeline, in program order:
handler invocations (with their batches) and book-cache mutations. -/
inductive MAction
  | onErrorCall
  | onBookCall (events : List BookEventData)
  | onTickSizeChangeCall (events : List TickSizeChangeEventData)
  | onPriceChangeCall (events : List PriceChangeEventData)
  | onLastTradePriceCall (events : List LastTradePriceEventData)
  | onPriceUpdateCall (events : List PriceUpdateEvent)
  | replaceBookCall (assetId : String)
  | upsertCall (assetId : String)
deriving DecidableEq, Repr

/-- Loop body of MarketGroupSocket.handlePriceChangeEvents for one
price_change event: upsert the deltas (errors logged and skipped), then if
the spread is not over 0.10 compute the midpoint and, when it differs from
the stored price, store it and emit one synthetic price_update. -/
def pcStep (c : BookCache) (ev : PriceChangeEventData) : BookCache × List MAction :=
  match upsertPriceChange c ev with
  | .error _ => (c, [])
  | .ok c1 =>
    match spreadOver c1 ev.assetId (1 / 10) with
    | .error _ => (c1, [.upsertCall ev.assetId])
    | .ok spreadOverTen =>
      if spreadOverTen then (c1, [.upsertCall ev.assetId])
      else
        match midpointOf c1 ev.assetId with
        | .error _ => (c1, [.upsertCall ev.assetId])
        | .ok newPrice =>
          match getBookEntry c1 ev.assetId with
          | none => (c1, [.upsertCall ev.assetId])
          | some ent =>
            if ent.price = some newPrice then (c1, [.upsertCall ev.assetId])
            else
              let ent1 := { ent with price := some newPrice }
              let upd : PriceUpdateEvent :=
                ⟨ev.assetId, .pc ev, ev.timestamp, ent1.bids, ent1.asks,
                 newPrice, ent1.midpoint, ent1.spread⟩
              (setBookEntry c1 ev.assetId ent1,
               [.upsertCall ev.assetId, .onPriceUpdateCall [upd]])

/-- Loop body of MarketGroupSocket.handleLastTradeEvents for one
last_trade_price event: if the spread is over 0.10, normalize the trade
price and, when it differs from the stored price, store it and emit one
synthetic price_update.  The book itself is not edited. -/
def ltStep (c : BookCache) (ev : LastTradePriceEventData) : BookCache × List MAction :=
  match spreadOver c ev.assetId (1 / 10) with
  | .error _ => (c, [])
  | .ok spreadOverTen =>
    if spreadOverTen then
      let newPrice := ev.price.normalize
      match getBookEntry c ev.assetId with
      | none => (c, [])
      | some ent =>
        if ent.price = some newPrice then (c, [])
        else
          let ent1 := { ent with price := some newPrice }
          let upd : PriceUpdateEvent :=
            ⟨ev.assetId, .lt ev, ev.timestamp, ent1.bids, ent1.asks,
             newPrice, ent1.midpoint, ent1.spread⟩
          (setBookEntry c ev.assetId ent1, [.onPriceUpdateCall [upd]])
    else (c, [])

/-- The `for` loop of handlePriceChangeEvents over the whole batch. -/
def pcFold : BookCache → List PriceChangeEventData → BookCache × List MAction
  | c, [] => (c, [])
  | c, ev :: rest =>
    let r := pcStep c ev
    let r2 := pcFold r.1 rest
    (r2.1, r.2 ++ r2.2)

/-- The `for` loop of handleLastTradeEvents over the whole batch. -/
def ltFold : BookCache → List LastTradePriceEventData → BookCache × List MAction
  | c, [] => (c, [])
  | c, ev :: rest =>
    let r := ltStep c ev
    let r2 := ltFold r.1 rest
    (r2.1, r.2 ++ r2.2)

/-- The `for` loop of handleBookEvents: replaceBook per event. -/
def bookFold : BookCache → List BookEventData → BookCache × List MAction
  | c, [] => (c, [])
  | c, ev :: rest =>
    let r := bookFold (replaceBook c ev) rest
    (r.1, .replaceBookCall ev.assetId :: r.2)

/-- MarketGroupSocket.handleBookEvents: when the bucket is non-empty, apply
replaceBook to each event, then invoke onBook with the batch. -/
def handleBookEvents (c : BookCache) (evs : List BookEventData) : BookCache × List MAction :=
  if evs.isEmpty then (c, [])
  else
    let r := bookFold c evs
    (r.1, r.2 ++ [.onBookCall evs])

/-- MarketGroupSocket.handleTickEvents: invoke onTickSizeChange with the
batch when non-empty. -/
def handleTickEvents (evs : List TickSizeChangeEventData) : List MAction :=
  if evs.isEmpty then [] else [.onTickSizeChangeCall evs]

/-- MarketGroupSocket.handlePriceChangeEvents: when the bucket is non-empty,
invoke onPriceChange with the batch, then run the per-event loop. -/
def handlePriceChangeEvents (c : BookCache) (evs : List PriceChangeEventData) :
    BookCache × List MAction :=
  if evs.isEmpty then (c, [])
  else
    let r := pcFold c evs
    (r.1, .onPriceChangeCall evs :: r.2)

/-- MarketGroupSocket.handleLastTradeEvents: when the bucket is non-empty,
invoke onLastTradePrice with the batch, then run the per-event loop. -/
def handleLastTradeEvents (c : BookCache) (evs : List LastTradePriceEventData) :
    BookCache × List MAction :=
  if evs.isEmpty then (c, [])
  else
    let r := ltFold c evs
    (r.1, .onLastTradePriceCall evs :: r.2)

/-- The four buckets of handleMessage plus the onError calls made inside the
bucketing loop. -/
structure Buckets where
  books : List BookEventData
  lasts : List LastTradePriceEventData
  ticks : List TickSizeChangeEventData
  pcs : List PriceChangeEventData
  errs : List MAction
deriving DecidableEq, Repr

def emptyBuckets : Buckets := ⟨[], [], [], [], []⟩

/-- Body of the bucketing loop of MarketGroupSocket.handleMessage: skip
events whose asset_id is not in the group, route the rest by type guard, and
invoke onError for unknown kinds. -/
def bucketStep (groupAssets : List String) (b : Buckets) (ev : MEvent) : Buckets :=
  if ev.assetId ∈ groupAssets then
    match ev with
    | .book d => { b with books := b.books ++ [d] }
    | .lastTradePrice d => { b with lasts := b.lasts ++ [d] }
    | .tickSizeChange d => { b with ticks := b.ticks ++ [d] }
    | .priceChange d => { b with pcs := b.pcs ++ [d] }
    | .unknown _ _ => { b with errs := b.errs ++ [.onErrorCall] }
  else b

def bucketize (groupAssets : List String) (evs : List MEvent) : Buckets :=
  evs.foldl (bucketStep groupAssets) emptyBuckets

/-- A received frame: invalid JSON, or a parsed list of entries (a single
object parses as a one-element list). -/
inductive MarketFrame
  | notJson
  | events (evs : List MEvent)
deriving DecidableEq, Repr

/-- MarketGroupSocket.handleMessage: on parse failure invoke onError and
return; otherwise drop entries with empty/missing asset_id, bucket (skipping
assets not in the group, onError on unknown kinds), then run the four bucket
handlers in the order book, tick, price_change, last_trade_price. -/
def marketHandleMessage (groupAssets : List String) (frame : MarketFrame) (c : BookCache) :
    BookCache × List MAction :=
  match frame with
  | .notJson => (c, [.onErrorCall])
  | .events evs =>
    let evs1 := evs.filter (fun e => e.assetId != "")
    let b := bucketize groupAssets evs1
    let rB := handleBookEvents c b.books
    let tT := handleTickEvents b.ticks
    let rP := handlePriceChangeEvents rB.1 b.pcs
    let rL := handleLastTradeEvents rP.1 b.lasts
    (rL.1, b.errs ++ rB.2 ++ tT ++ rP.2 ++ rL.2)

/-- Per-connection state visible to handleMessage: the group status, whether
the socket has been closed by the handler, and the book cache. -/
structure MarketConnState where
  status : WebSocketStatus
  socketClosed : Bool
  cache : BookCache
deriving DecidableEq, Repr

/-- handleMessage at the connection-state level: the method mutates only the
book cache — it never assigns group.status and never closes the socket. -/
def marketHandleMessageConn (groupAssets : List String) (frame : MarketFrame)
    (s : MarketConnState) : MarketConnState × List MAction :=
  let r := marketHandleMessage groupAssets frame s.cache
  ({ s with cache := r.1 }, r.2)

/-- A parsed entry of a user frame.  `eventType = ""` models a missing or
falsy `event_type` (the structural filter drops it); unknown kinds are those
whose `event_type` is neither "order" nor "trade".  `market = ""` models a
missing `market` field (the dispatch filter treats a missing market as empty). -/
structure UserRawEvent where
  eventType : String
  market : String
  payload : String
deriving DecidableEq, Repr

/-- Observable effects of the user message pipeline. -/
inductive UAction
  | onErrorCall
  | onOrderCall (events : List UserRawEvent)
  | onTradeCall (events : List UserRawEvent)
deriving DecidableEq, Repr

/-- A received user-channel frame. -/
inductive UserFrame
  | notJson
  | events (evs : List UserRawEvent)
deriving DecidableEq, Repr

/-- UserGroupSocket.handleMessage: onError on parse failure; otherwise drop
entries without an `event_type`, bucket into order/trade by the type guards
(events of any other kind fall through both guards and are silently
discarded), then invoke onOrder and onTrade with the non-empty batches. -/
def userHandleMessage (frame : UserFrame) : List UAction :=
  match frame with
  | .notJson => [.onErrorCall]
  | .events evs =>
    let evs1 := evs.filter (fun e => e.eventType != "")
    let orders := evs1.filter (fun e => e.eventType == "order")
    let trades := evs1.filter (fun e => e.eventType == "trade")
    (if orders.isEmpty then [] else [.onOrderCall orders]) ++
    (if trades.isEmpty then [] else [.onTradeCall trades])

/-- Actions taken by the on-open handlers. -/
inductive OpenAction
  | sendSub
  | onWSOpenCall
  | startPing
deriving DecidableEq, Repr

/-- The socket handle at on-open time: gone, or present with the given
outcome for `send`. -/
inductive SocketState
  | absent
  | present (sendSucceeds : Bool)
deriving DecidableEq, Repr

/-- MarketGroupSocket.handleOpen: re-check shouldCleanup (empty asset set);
set ALIVE; if a socket handle exists, send the subscription payload, a send
failure setting DEAD and returning.  When the handle is gone the send block
is skipped entirely and the method continues: onWSOpen is invoked and the
heartbeat started with the status left ALIVE. -/
def marketHandleOpen (assetCount : Nat) (sock : SocketState) :
    WebSocketStatus × List OpenAction :=
  if assetCount = 0 then (.cleanup, [])
  else
    match sock with
    | .present sendOk =>
      if sendOk then (.alive, [.sendSub, .onWSOpenCall, .startPing])
      else (.dead, [.sendSub])
    | .absent => (.alive, [.onWSOpenCall, .startPing])

/-- UserGroupSocket.handleOpen: re-check shouldCleanup (no markets and not
subscribeToAll); a missing socket handle sets DEAD; a send failure sets
DEAD; on success set ALIVE, invoke onWSOpen and start the heartbeat. -/
def userHandleOpen (marketCount : Nat) (subscribeToAll : Bool) (sock : SocketState) :
    WebSocketStatus × List OpenAction :=
  if marketCount = 0 ∧ subscribeToAll = false then (.cleanup, [])
  else
    match sock with
    | .absent => (.dead, [])
    | .present sendOk =>
      if sendOk then (.alive, [.sendSub, .onWSOpenCall, .startPing])
      else (.dead, [.sendSub])

/-- Walk the group list collecting the indices (from `i`) of the groups that
hold the asset. -/
def getGroupIndicesFrom (i : Nat) (groups : List (List String)) (assetId : String) :
    List Nat :=
  match groups with
  | [] => []
  | g :: rest =>
    if assetId ∈ g then i :: getGroupIndicesFrom (i + 1) rest assetId
    else getGroupIndicesFrom (i + 1) rest assetId

/-- Modelled from the spec: GroupRegistry.getGroupIndicesForAsset
(GroupRegistry.ts is not among the given sources) — the indices of the
groups whose key set holds the asset.  A registry is its list of per-group
key sets. -/
def getGroupIndicesForAsset (groups : List (List String)) (assetId : String) : List Nat :=
  getGroupIndicesFrom 0 groups assetId

/-- WSSubscriptionManager.filterSubscribedEvents: keep the events whose
asset_id is in at least one group; also report (as warnings) the asset_ids
seen with more than one group.  `assetOf` extracts `event.asset_id`. -/
def marketFilterSubscribed {α : Type} (assetOf : α → String)
    (groups : List (List String)) (events : List α) : List α × List String :=
  (events.filter (fun e => !(getGroupIndicesForAsset groups (assetOf e)).isEmpty),
   (events.filter (fun e => 1 < (getGroupIndicesForAsset groups (assetOf e)).length)).map assetOf)

/-- A user-registry group as seen by the dispatch filter. -/
structure UserGroup where
  marketIds : List String
  subscribeToAll : Bool
deriving DecidableEq, Repr

/-- Modelled from the spec: UserGroupRegistry.hasSubscribeToAll — whether any
group has the subscribeToAll flag. -/
def hasSubscribeToAll (groups : List UserGroup) : Bool :=
  groups.any (·.subscribeToAll)

/-- Modelled from the spec: UserGroupRegistry.hasMarket — whether any group
holds the market id. -/
def hasMarket (groups : List UserGroup) (m : String) : Bool :=
  groups.any (fun g => decide (m ∈ g.marketIds))

/-- UserWSSubscriptionManager.filterSubscribedEvents: pass everything through
when some group has subscribeToAll, else keep the events whose market is
subscribed. -/
def userFilterSubscribedEvents (groups : List UserGroup) (events : List UserRawEvent) :
    List UserRawEvent :=
  if hasSubscribeToAll groups then events
  else events.filter (fun e => hasMarket groups e.market)

/-- BaseSubscriptionManager.actOnSubscribedEvents: without an action return
at once; with one, always invoke it with the filtered batch (even when the
batch is empty).  `some batch` records the invocation. -/
def actOnSubscribedEvents {α : Type} (filterFn : List α → List α) (events : List α)
    (hasAction : Bool) : Option (List α) :=
  if hasAction then some (filterFn events) else none

/-- JavaScript `a || b` over an optional numeric option: undefined and 0 are
falsy. -/
def jsOrNat (v : Option Nat) (fallback : Nat) : Nat :=
  match v with
  | none => fallback
  | some n => if n = 0 then fallback else n

/-- The DEFAULT_MAX_MARKETS_PER_WS constant of BaseSubscriptionManager. -/
def DEFAULT_MAX_MARKETS_PER_WS : Nat := 100

/-- JavaScript Number.MAX_SAFE_INTEGER. -/
def MAX_SAFE_INTEGER : Nat := 9007199254740991

/-- BaseSubscriptionManager constructor:
`getMaxMarketsPerWS(options) || defaultOptions.maxMarketsPerWS || 100`. -/
def baseResolveMaxMarketsPerWS (optionsVal : Option Nat) (defaultOptionsVal : Option Nat) : Nat :=
  jsOrNat optionsVal (jsOrNat defaultOptionsVal DEFAULT_MAX_MARKETS_PER_WS)

/-- Modelled from the spec: the exported market manager
(MarketWSSubscriptionManager.ts, re-exported by the package index, is not
among the given sources) passes Number.MAX_SAFE_INTEGER as its
defaultOptions.maxMarketsPerWS, making the market default effectively
unbounded. -/
def marketManagerMaxMarketsPerWS (optionsVal : Option Nat) : Nat :=
  baseResolveMaxMarketsPerWS optionsVal (some MAX_SAFE_INTEGER)

/-- UserWSSubscriptionManager passes no defaultOptions to the base
constructor, so the base default of 100 applies (its locally declared
Number.MAX_SAFE_INTEGER constant is never used). -/
def userManagerMaxMarketsPerWS (optionsVal : Option Nat) : Nat :=
  baseResolveMaxMarketsPerWS optionsVal none

/-- Decidable equality for Except results, used to evaluate cache operations
at concrete inputs. -/
instance {ε α : Type} [DecidableEq ε] [DecidableEq α] : DecidableEq (Except ε α) :=
  fun x y =>
    match x, y with
    | .error a, .error b =>
      if h : a = b then isTrue (by rw [h])
      else isFalse (fun hc => by cases hc; exact h rfl)
    | .ok a, .ok b =>
      if h : a = b then isTrue (by rw [h])
      else isFalse (fun hc => by cases hc; exact h rfl)
    | .error _, .ok _ => isFalse (fun hc => by cases hc)
    | .ok _, .error _ => isFalse (fun hc => by cases hc)

/-- Bool test: is an action an onError invocation? -/
def isErrorAct : MAction → Bool
  | .onErrorCall => true
  | _ => false

/-- Bool test: is an action an onBook invocation? -/
def isOnBookAct : MAction → Bool
  | .onBookCall _ => true
  | _ => false

/-- Bool test: is an action a replaceBook cache write? -/
def isReplaceBookAct : MAction → Bool
  | .replaceBookCall _ => true
  | _ => false

/-- Bool test: is a user action an onError invocation? -/
def isErrorUAct : UAction → Bool
  | .onErrorCall => true
  | _ => false

/-- Bool test: every onPolymarketPriceUpdate invocation carries exactly one
event (other actions pass trivially). -/
def puBatchSingleton : MAction → Bool
  | .onPriceUpdateCall us => us.length == 1
  | _ => true

/- Concrete inputs used by witnesses and counterexamples.  They follow the
"Book apply" and "Derived from last trade" scenarios of the spec. -/

/-- Book snapshot for asset "a": bids [(0.60, 10)], asks [(0.62, 8)]. -/
def bkW : BookEventData :=
  ⟨"a", "t1", [⟨⟨60, 2⟩, ⟨10, 0⟩⟩], [⟨⟨62, 2⟩, ⟨8, 0⟩⟩], "h1"⟩

/-- Cache holding the snapshot of `bkW`. -/
def cW : BookCache := replaceBook [] bkW

/-- price_change for "a": remove the 0.60 bid, add a (0.59, 5) bid. -/
def pcEvW : PriceChangeEventData :=
  ⟨"a", "t2", [⟨⟨60, 2⟩, ⟨0, 0⟩, .buy⟩, ⟨⟨59, 2⟩, ⟨5, 0⟩, .buy⟩]⟩

/-- The book entry after applying `pcEvW` to `cW`: bids [(0.59, 5)],
midpoint 0.605, spread 0.03. -/
def entW : BookEntry :=
  ⟨[⟨⟨59, 2⟩, ⟨5, 0⟩⟩], [⟨⟨62, 2⟩, ⟨8, 0⟩⟩],
   some ⟨605, 3⟩, some ⟨3, 2⟩, none, "h1", "t1"⟩

/-- The cache after applying `pcEvW` to `cW`. -/
def c1W : BookCache := [("a", entW)]

/-- A wide-spread book entry for "a": bids [(0.50, 10)], asks [(0.62, 8)],
midpoint 0.56, spread 0.12. -/
def entW2 : BookEntry :=
  ⟨[⟨⟨50, 2⟩, ⟨10, 0⟩⟩], [⟨⟨62, 2⟩, ⟨8, 0⟩⟩],
   some ⟨56, 2⟩, some ⟨12, 2⟩, none, "h2", "t3"⟩

/-- Cache holding `entW2`. -/
def cW2 : BookCache := [("a", entW2)]

/-- last_trade_price for "a" at "0.7000". -/
def ltEvW : LastTradePriceEventData := ⟨"a", "t4", ⟨7000, 4⟩, ⟨3, 0⟩, .sell⟩

/-- A user-channel event of an unrecognized kind. -/
def unknownUEventW : UserRawEvent := ⟨"mystery", "m1", "p"⟩

/-- A user registry with a subscribeToAll group. -/
def userGroupsAllW : List UserGroup := [⟨["m1"], true⟩]

/-- A user registry without subscribeToAll. -/
def userGroupsFilW : List UserGroup := [⟨["m1"], false⟩]

/- ------------------------------------------------------------------ -/
/- Helper lemmas -/
/- ------------------------------------------------------------------ -/

theorem getBookEntry_setBookEntry (c : BookCache) (a : String) (ent : BookEntry) :
    getBookEntry (setBookEntry c a ent) a = some ent := by
  induction c with
  | nil => simp [setBookEntry, getBookEntry, List.find?]
  | cons p rest ih =>
    obtain ⟨b, e0⟩ := p
    by_cases h : b = a
    · subst h
      simp [setBookEntry, getBookEntry, List.find?]
    · have hb : (b == a) = false := by simpa using h
      simp only [setBookEntry, if_neg h]
      simpa [getBookEntry, List.find?, hb] using ih

theorem pcStep_trace_shape (c : BookCache) (ev : PriceChangeEventData) :
    (pcStep c ev).2 = []
    ∨ (pcStep c ev).2 = [.upsertCall ev.assetId]
    ∨ ∃ u, (pcStep c ev).2 = [.upsertCall ev.assetId, .onPriceUpdateCall [u]] := by
  unfold pcStep
  split
  · exact Or.inl rfl
  · split
    · exact Or.inr (Or.inl rfl)
    · split
      · exact Or.inr (Or.inl rfl)
      · split
        · exact Or.inr (Or.inl rfl)
        · split
          · exact Or.inr (Or.inl rfl)
          · split
            · exact Or.inr (Or.inl rfl)
            · exact Or.inr (Or.inr ⟨_, rfl⟩)

theorem ltStep_trace_shape (c : BookCache) (ev : LastTradePriceEventData) :
    (ltStep c ev).2 = [] ∨ ∃ u, (ltStep c ev).2 = [.onPriceUpdateCall [u]] := by
  unfold ltStep
  dsimp only
  split
  · exact Or.inl rfl
  · split
    · split
      · exact Or.inl rfl
      · split
        · exact Or.inl rfl
        · exact Or.inr ⟨_, rfl⟩
    · exact Or.inl rfl

theorem pcFold_trace_mem (evs : List PriceChangeEventData) :
    ∀ (c : BookCache) (x : MAction), x ∈ (pcFold c evs).2 →
      (∃ a, x = .upsertCall a) ∨ ∃ u, x = .onPriceUpdateCall [u] := by
  induction evs with
  | nil =>
    intro c x hx
    simp [pcFold] at hx
  | cons ev rest ih =>
    intro c x hx
    simp only [pcFold, List.mem_append] at hx
    rcases hx with hx | hx
    · rcases pcStep_trace_shape c ev with h | h | ⟨u, h⟩ <;> rw [h] at hx
      · simp at hx
      · simp at hx
        exact Or.inl ⟨ev.assetId, hx⟩
      · simp at hx
        rcases hx with hx | hx
        · exact Or.inl ⟨ev.assetId, hx⟩
        · exact Or.inr ⟨u, hx⟩
    · exact ih _ x hx

theorem ltFold_trace_mem (evs : List LastTradePriceEventData) :
    ∀ (c : BookCache) (x : MAction), x ∈ (ltFold c evs).2 →
      ∃ u, x = .onPriceUpdateCall [u] := by
  induction evs with
  | nil =>
    intro c x hx
    simp [ltFold] at hx
  | cons ev rest ih =>
    intro c x hx
    simp only [ltFold, List.mem_append] at hx
    rcases hx with hx | hx
    · rcases ltStep_trace_shape c ev with h | ⟨u, h⟩ <;> rw [h] at hx
      · simp at hx
      · simp at hx
        exact ⟨u, hx⟩
    · exact ih _ x hx

theorem bookFold_trace (evs : List BookEventData) :
    ∀ c, (bookFold c evs).2 = evs.map (fun e => MAction.replaceBookCall e.assetId) := by
  induction evs with
  | nil => intro c; rfl
  | cons ev rest ih =>
    intro c
    simp [bookFold, ih]

theorem handleBookEvents_trace_mem (c : BookCache) (evs : List BookEventData) (x : MAction)
    (hx : x ∈ (handleBookEvents c evs).2) :
    (∃ a, x = .replaceBookCall a) ∨ x = .onBookCall evs := by
  unfold handleBookEvents at hx
  by_cases he : evs.isEmpty
  · simp [he] at hx
  · simp only [if_neg he, List.mem_append] at hx
    rcases hx with hx | hx
    · rw [bookFold_trace] at hx
      simp only [List.mem_map] at hx
      obtain ⟨e, _, hxx⟩ := hx
      exact Or.inl ⟨e.assetId, hxx.symm⟩
    · simp at hx
      exact Or.inr hx

theorem handleTickEvents_trace_mem (evs : List TickSizeChangeEventData) (x : MAction)
    (hx : x ∈ handleTickEvents evs) : x = .onTickSizeChangeCall evs := by
  unfold handleTickEvents at hx
  by_cases he : evs.isEmpty
  · simp [he] at hx
  · simp only [if_neg he] at hx
    simpa using hx

theorem handlePriceChangeEvents_trace_mem (c : BookCache) (evs : List PriceChangeEventData)
    (x : MAction) (hx : x ∈ (handlePriceChangeEvents c evs).2) :
    x = .onPriceChangeCall evs ∨ (∃ a, x = .upsertCall a) ∨ ∃ u, x = .onPriceUpdateCall [u] := by
  unfold handlePriceChangeEvents at hx
  by_cases he : evs.isEmpty
  · simp [he] at hx
  · simp only [if_neg he, List.mem_cons] at hx
    rcases hx with hx | hx
    · exact Or.inl hx
    · exact Or.inr (pcFold_trace_mem evs c x hx)

theorem handleLastTradeEvents_trace_mem (c : BookCache) (evs : List LastTradePriceEventData)
    (x : MAction) (hx : x ∈ (handleLastTradeEvents c evs).2) :
    x = .onLastTradePriceCall evs ∨ ∃ u, x = .onPriceUpdateCall [u] := by
  unfold handleLastTradeEvents at hx
  by_cases he : evs.isEmpty
  · simp [he] at hx
  · simp only [if_neg he, List.mem_cons] at hx
    rcases hx with hx | hx
    · exact Or.inl hx
    · exact Or.inr (ltFold_trace_mem evs c x hx)

theorem bucketStep_foldl_errs (g : List String) (evs : List MEvent) :
    ∀ b : Buckets, (evs.foldl (bucketStep g) b).errs
      = b.errs ++ List.replicate
          (evs.countP (fun e => decide (e.assetId ∈ g) && e.isUnknownKind))
          .onErrorCall := by
  induction evs with
  | nil => intro b; simp
  | cons e rest ih =>
    intro b
    rw [List.foldl_cons, ih, List.countP_cons]
    by_cases hm : e.assetId ∈ g
    · cases e with
      | unknown a p =>
        simp only [MEvent.assetId] at hm
        simp [bucketStep, MEvent.assetId, MEvent.isUnknownKind, hm, List.replicate_succ]
      | book d =>
        simp only [MEvent.assetId] at hm
        simp [bucketStep, MEvent.assetId, MEvent.isUnknownKind, hm]
      | priceChange d =>
        simp only [MEvent.assetId] at hm
        simp [bucketStep, MEvent.assetId, MEvent.isUnknownKind, hm]
      | tickSizeChange d =>
        simp only [MEvent.assetId] at hm
        simp [bucketStep, MEvent.assetId, MEvent.isUnknownKind, hm]
      | lastTradePrice d =>
        simp only [MEvent.assetId] at hm
        simp [bucketStep, MEvent.assetId, MEvent.isUnknownKind, hm]
    · simp [bucketStep, hm]

theorem bucketize_errs_mem (g : List String) (evs : List MEvent) (x : MAction)
    (hx : x ∈ (bucketize g evs).errs) : x = .onErrorCall := by
  unfold bucketize at hx
  rw [bucketStep_foldl_errs] at hx
  simp only [emptyBuckets, List.nil_append] at hx
  exact List.eq_of_mem_replicate hx

/- ------------------------------------------------------------------ -/
/- Claim theorems -/
/- ------------------------------------------------------------------ -/

theorem countP_isError_replicate (n : Nat) :
    (List.replicate n MAction.onErrorCall).countP isErrorAct = n := by
  induction n with
  | zero => rfl
  | succ k ih => simp [List.replicate_succ, List.countP_cons, ih, isErrorAct]

theorem bucketize_skip_nonmembers (g : List String) (evs : List MEvent) :
    ∀ b, List.foldl (bucketStep g) b (evs.filter (fun e => decide (e.assetId ∈ g)))
       = List.foldl (bucketStep g) b evs := by
  induction evs with
  | nil => intro b; rfl
  | cons e rest ih =>
    intro b
    by_cases hm : e.assetId ∈ g
    · have hd : decide (e.assetId ∈ g) = true := by simpa using hm
      rw [List.filter_cons, hd, if_pos rfl, List.foldl_cons, List.foldl_cons, ih]
    · have hd : decide (e.assetId ∈ g) = false := by simpa using hm
      have hb : bucketStep g b e = b := by simp [bucketStep, hm]
      rw [List.filter_cons, hd, if_neg (by simp), List.foldl_cons, hb, ih]

/- ------------------------------------------------------------------ -/

/-- C9: for every frame that is not valid JSON, handleMessage invokes
onError exactly once and returns normally on both variants: the trace is a
single onError call, the cache, status and socket are untouched. -/
theorem parse_error_behavior :
    (∀ (g : List String) (s : MarketConnState),
      marketHandleMessageConn g .notJson s = (s, [.onErrorCall]))
    ∧ userHandleMessage .notJson = [.onErrorCall] := by
  exact ⟨fun g s => rfl, rfl⟩

/-- C8: when maxMarketsPerWS is omitted at construction, the market manager
resolves the per-group key limit to Number.MAX_SAFE_INTEGER (effectively
unbounded), while the user manager resolves it to the base default of 100. -/
theorem default_max_markets_per_ws :
    marketManagerMaxMarketsPerWS none = MAX_SAFE_INTEGER
    ∧ userManagerMaxMarketsPerWS none = 100 := by
  exact ⟨rfl, rfl⟩

/-- C6 counterexample: on the market variant, when the socket handle has
disappeared at on-open time (with a non-empty group), the group is NOT set
DEAD — it is left ALIVE and onWSOpen and the heartbeat still run. -/
theorem market_open_missing_socket_not_dead :
    marketHandleOpen 1 .absent = (.alive, [.onWSOpenCall, .startPing])
    ∧ WebSocketStatus.alive ≠ WebSocketStatus.dead := by
  exact ⟨rfl, by decide⟩

/-- C6 (amended): both variants re-check shouldCleanup on open; on the
user variant a missing socket handle sets DEAD, while the market variant
skips the send and continues with the group left ALIVE, invoking onWSOpen
and starting the heartbeat; on both variants a send failure sets DEAD and a
successful send leaves the group ALIVE, invokes onWSOpen and starts the
heartbeat. -/
theorem handle_open_behavior :
    (∀ sock, marketHandleOpen 0 sock = (.cleanup, []))
    ∧ (∀ n, n ≠ 0 →
        marketHandleOpen n (.present true) = (.alive, [.sendSub, .onWSOpenCall, .startPing])
        ∧ marketHandleOpen n (.present false) = (.dead, [.sendSub])
        ∧ marketHandleOpen n .absent = (.alive, [.onWSOpenCall, .startPing]))
    ∧ (∀ sock, userHandleOpen 0 false sock = (.cleanup, []))
    ∧ (∀ n b, (n ≠ 0 ∨ b = true) →
        userHandleOpen n b (.present true) = (.alive, [.sendSub, .onWSOpenCall, .startPing])
        ∧ userHandleOpen n b (.present false) = (.dead, [.sendSub])
        ∧ userHandleOpen n b .absent = (.dead, [])) := by
  refine ⟨fun sock => by simp [marketHandleOpen], ?_, fun sock => by simp [userHandleOpen], ?_⟩
  · intro n hn
    refine ⟨?_, ?_, ?_⟩ <;> simp [marketHandleOpen, hn]
  · intro n b hnb
    have h : ¬(n = 0 ∧ b = false) := by
      rcases hnb with h1 | h1
      · exact fun hc => h1 hc.1
      · exact fun hc => by
          rw [h1] at hc
          exact absurd hc.2 (by decide)
    refine ⟨?_, ?_, ?_⟩ <;> simp [userHandleOpen, if_neg h]

/-- C6 witness: the amended on-open behavior evaluated at concrete inputs. -/
theorem handle_open_behavior_witness :
    marketHandleOpen 2 (.present false) = (.dead, [.sendSub])
    ∧ userHandleOpen 0 true .absent = (.dead, []) :=
  ⟨(handle_open_behavior.2.1 2 (by decide)).2.1,
   (handle_open_behavior.2.2.2 0 true (Or.inr rfl)).2.2⟩

/-- C7 counterexample: on the user variant an event of unrecognized kind is
dropped silently — handleMessage produces no actions at all, in particular
no onError invocation, contradicting the claim for the user variant. -/
theorem user_unknown_event_no_onerror :
    userHandleMessage (.events [unknownUEventW]) = []
    ∧ UAction.onErrorCall ∉ userHandleMessage (.events [unknownUEventW]) := by
  refine ⟨rfl, ?_⟩
  intro hmem
  rw [show userHandleMessage (.events [unknownUEventW]) = [] from rfl] at hmem
  simp at hmem

/-- C7 (amended): on the market variant, every kept event of unrecognized
kind (non-empty asset_id inside the group) produces exactly one onError
invocation and lands in no bucket; on the user variant unrecognized kinds
are silently discarded and onError is never invoked for them. -/
theorem unknown_event_kind_handling (g : List String) (evs : List MEvent)
    (c : BookCache) (uevs : List UserRawEvent) :
    ((marketHandleMessage g (.events evs) c).2.countP isErrorAct
      = (evs.filter (fun e => e.assetId != "")).countP
          (fun e => decide (e.assetId ∈ g) && e.isUnknownKind))
    ∧ (userHandleMessage (.events uevs)).countP isErrorUAct = 0 := by
  constructor
  · unfold marketHandleMessage
    dsimp only
    rw [List.countP_append, List.countP_append, List.countP_append, List.countP_append]
    have h1 : ((bucketize g (evs.filter (fun e => e.assetId != ""))).errs).countP isErrorAct
        = (evs.filter (fun e => e.assetId != "")).countP
            (fun e => decide (e.assetId ∈ g) && e.isUnknownKind) := by
      unfold bucketize
      rw [bucketStep_foldl_errs]
      simp only [emptyBuckets, List.nil_append]
      exact countP_isError_replicate _
    have h2 : ∀ (c2 : BookCache) (bs : List BookEventData),
        ((handleBookEvents c2 bs).2).countP isErrorAct = 0 := by
      intro c2 bs
      rw [List.countP_eq_zero]
      intro a ha
      rcases handleBookEvents_trace_mem c2 bs a ha with ⟨x, rfl⟩ | rfl <;> simp [isErrorAct]
    have h3 : ∀ (ts : List TickSizeChangeEventData),
        (handleTickEvents ts).countP isErrorAct = 0 := by
      intro ts
      rw [List.countP_eq_zero]
      intro a ha
      rw [handleTickEvents_trace_mem ts a ha]
      simp [isErrorAct]
    have h4 : ∀ (c2 : BookCache) (ps : List PriceChangeEventData),
        ((handlePriceChangeEvents c2 ps).2).countP isErrorAct = 0 := by
      intro c2 ps
      rw [List.countP_eq_zero]
      intro a ha
      rcases handlePriceChangeEvents_trace_mem c2 ps a ha with rfl | ⟨x, rfl⟩ | ⟨u, rfl⟩ <;>
        simp [isErrorAct]
    have h5 : ∀ (c2 : BookCache) (ls : List LastTradePriceEventData),
        ((handleLastTradeEvents c2 ls).2).countP isErrorAct = 0 := by
      intro c2 ls
      rw [List.countP_eq_zero]
      intro a ha
      rcases handleLastTradeEvents_trace_mem c2 ls a ha with rfl | ⟨u, rfl⟩ <;>
        simp [isErrorAct]
    rw [h1, h2, h3, h4, h5]
    omega
  · rw [List.countP_eq_zero]
    intro a ha
    unfold userHandleMessage at ha
    dsimp only at ha
    rw [List.mem_append] at ha
    rcases ha with ha | ha
    · by_cases h : ((uevs.filter (fun e => e.eventType != "")).filter
          (fun e => e.eventType == "order")).isEmpty
      · rw [if_pos h] at ha
        simp at ha
      · rw [if_neg h] at ha
        simp only [List.mem_singleton] at ha
        subst ha
        simp [isErrorUAct]
    · by_cases h : ((uevs.filter (fun e => e.eventType != "")).filter
          (fun e => e.eventType == "trade")).isEmpty
      · rw [if_pos h] at ha
        simp at ha
      · rw [if_neg h] at ha
        simp only [List.mem_singleton] at ha
        subst ha
        simp [isErrorUAct]

/-- C10: every onPolymarketPriceUpdate invocation of the market pipeline
carries exactly one synthesized price_update event; synthesized updates are
never batched together. -/
theorem price_update_batches_singleton (g : List String) (frame : MarketFrame) (c : BookCache) :
    (marketHandleMessage g frame c).2.all puBatchSingleton = true := by
  rw [List.all_eq_true]
  intro x hx
  cases frame with
  | notJson =>
    simp only [marketHandleMessage, List.mem_singleton] at hx
    subst hx
    rfl
  | events evs =>
    unfold marketHandleMessage at hx
    dsimp only at hx
    simp only [List.mem_append] at hx
    rcases hx with ((((hx | hx) | hx) | hx) | hx)
    · rw [bucketize_errs_mem _ _ _ hx]
      rfl
    · rcases handleBookEvents_trace_mem _ _ _ hx with ⟨a, rfl⟩ | rfl <;> rfl
    · rw [handleTickEvents_trace_mem _ _ hx]
      rfl
    · rcases handlePriceChangeEvents_trace_mem _ _ _ hx with rfl | ⟨a, rfl⟩ | ⟨u, rfl⟩ <;>
        simp [puBatchSingleton]
    · rcases handleLastTradeEvents_trace_mem _ _ _ hx with rfl | ⟨u, rfl⟩ <;>
        simp [puBatchSingleton]

/-- C3: events with an empty or missing asset_id, or an asset_id outside the
key set of the group, are dropped before bucketing: processing a frame equals
processing the sub-frame of kept events — same handler trace, same cache. -/
theorem dropped_events_no_effect (g : List String) (evs : List MEvent) (c : BookCache) :
    marketHandleMessage g (.events evs) c
      = marketHandleMessage g
          (.events (evs.filter (fun e => e.assetId != "" && decide (e.assetId ∈ g)))) c := by
  have h1 : (evs.filter (fun e => e.assetId != "" && decide (e.assetId ∈ g))).filter
        (fun e => e.assetId != "")
      = evs.filter (fun e => e.assetId != "" && decide (e.assetId ∈ g)) := by
    rw [List.filter_filter]
    apply List.filter_congr
    intro e _
    cases hne : (e.assetId != "") <;> simp [hne]
  have h2 : evs.filter (fun e => e.assetId != "" && decide (e.assetId ∈ g))
      = (evs.filter (fun e => e.assetId != "")).filter (fun e => decide (e.assetId ∈ g)) := by
    rw [List.filter_filter]
    apply List.filter_congr
    intro e _
    cases hne : (e.assetId != "") <;> simp [hne]
  have hbuck : bucketize g ((evs.filter (fun e => e.assetId != "" && decide (e.assetId ∈ g))).filter
        (fun e => e.assetId != ""))
      = bucketize g (evs.filter (fun e => e.assetId != "")) := by
    rw [h1, h2]
    exact bucketize_skip_nonmembers g (evs.filter (fun e => e.assetId != "")) emptyBuckets
  unfold marketHandleMessage
  dsimp only
  rw [hbuck]

/-- C4 counterexample: for a frame with one book event, the replaceBook
cache write happens BEFORE the onBook handler invocation, so the claim that
the handler is invoked before the cache update is false at this input. -/
theorem market_book_cache_write_precedes_handler :
    (marketHandleMessage ["a"] (.events [.book bkW]) []).2
      = [.replaceBookCall "a", .onBookCall [bkW]]
    ∧ ¬ ((marketHandleMessage ["a"] (.events [.book bkW]) []).2.findIdx isOnBookAct
          < (marketHandleMessage ["a"] (.events [.book bkW]) []).2.findIdx isReplaceBookAct) := by
  exact ⟨by rfl, by decide⟩

/-- C4 (amended): the non-empty buckets are processed in the order book,
tick_size_change, price_change, last_trade_price; for book events each
replaceBook cache write precedes the onBook handler invocation with the
whole batch, while for price_change the onPriceChange handler invocation
with the whole batch precedes every upsertPriceChange cache write; an
upsertPriceChange failure skips the cache write of that event and derived-price
work and processing continues with the next event (never fatal). -/
theorem market_pipeline_order :
    (∀ (g : List String) (evs : List MEvent) (c : BookCache),
      marketHandleMessage g (.events evs) c
        = (let b := bucketize g (evs.filter (fun e => e.assetId != ""))
           let rB := handleBookEvents c b.books
           let rP := handlePriceChangeEvents rB.1 b.pcs
           let rL := handleLastTradeEvents rP.1 b.lasts
           (rL.1, b.errs ++ rB.2 ++ handleTickEvents b.ticks ++ rP.2 ++ rL.2)))
    ∧ (∀ (c : BookCache) (bs : List BookEventData), bs ≠ [] →
        (handleBookEvents c bs).2
          = bs.map (fun e => MAction.replaceBookCall e.assetId) ++ [.onBookCall bs])
    ∧ (∀ (c : BookCache) (ps : List PriceChangeEventData), ps ≠ [] →
        (handlePriceChangeEvents c ps).2 = .onPriceChangeCall ps :: (pcFold c ps).2)
    ∧ (∀ (c : BookCache) (ev : PriceChangeEventData) (rest : List PriceChangeEventData)
        (e0 : CacheErr), upsertPriceChange c ev = .error e0 →
        pcFold c (ev :: rest) = pcFold c rest) := by
  refine ⟨fun g evs c => rfl, ?_, ?_, ?_⟩
  · intro c bs hbs
    have h : bs.isEmpty = false := by
      cases bs
      · exact absurd rfl hbs
      · rfl
    unfold handleBookEvents
    rw [h, if_neg (by simp)]
    dsimp only
    rw [bookFold_trace]
  · intro c ps hps
    have h : ps.isEmpty = false := by
      cases ps
      · exact absurd rfl hps
      · rfl
    unfold handlePriceChangeEvents
    rw [h, if_neg (by simp)]
  · intro c ev rest e0 hup
    have hstep : pcStep c ev = (c, []) := by
      unfold pcStep
      rw [hup]
    show (let r := pcStep c ev
          let r2 := pcFold r.1 rest
          (r2.1, r.2 ++ r2.2)) = pcFold c rest
    rw [hstep]
    dsimp only
    rw [List.nil_append]

/-- C4 witness: the amended ordering facts evaluated at concrete inputs,
including an upsert failure (price_change for an asset with no snapshot)
that is skipped without aborting the loop. -/
theorem market_pipeline_order_witness :
    ([bkW] ≠ ([] : List BookEventData))
    ∧ (handleBookEvents ([] : BookCache) [bkW]).2
        = [bkW].map (fun e => MAction.replaceBookCall e.assetId) ++ [.onBookCall [bkW]]
    ∧ upsertPriceChange ([] : BookCache) pcEvW = .error .bookNotFound
    ∧ pcFold ([] : BookCache) [pcEvW] = pcFold ([] : BookCache) [] := by
  refine ⟨by simp, market_pipeline_order.2.1 [] [bkW] (by simp), by rfl,
    market_pipeline_order.2.2.2 [] pcEvW [] .bookNotFound (by rfl)⟩

theorem getGroupIndicesFrom_isEmpty (a : String) (groups : List (List String)) :
    ∀ i, (getGroupIndicesFrom i groups a).isEmpty
      = !(groups.any (fun g => decide (a ∈ g))) := by
  induction groups with
  | nil => intro i; rfl
  | cons g rest ih =>
    intro i
    by_cases hm : a ∈ g
    · simp [getGroupIndicesFrom, hm]
    · simp [getGroupIndicesFrom, hm, ih]

theorem getGroupIndicesFrom_length (a : String) (groups : List (List String)) :
    ∀ i, (getGroupIndicesFrom i groups a).length
      = groups.countP (fun g => decide (a ∈ g)) := by
  induction groups with
  | nil => intro i; rfl
  | cons g rest ih =>
    intro i
    by_cases hm : a ∈ g
    · simp [getGroupIndicesFrom, hm, List.countP_cons, ih]
    · simp [getGroupIndicesFrom, hm, List.countP_cons, ih]

theorem getGroupIndicesForAsset_isEmpty (groups : List (List String)) (a : String) :
    (getGroupIndicesForAsset groups a).isEmpty
      = !(groups.any (fun g => decide (a ∈ g))) :=
  getGroupIndicesFrom_isEmpty a groups 0

theorem getGroupIndicesForAsset_length (groups : List (List String)) (a : String) :
    (getGroupIndicesForAsset groups a).length
      = groups.countP (fun g => decide (a ∈ g)) :=
  getGroupIndicesFrom_length a groups 0

/-- C5: every outbound batch passes through filterSubscribedEvents before
the user handler runs.  The market filter keeps exactly the events whose
asset_id is in at least one group, warning per event whose asset_id is in
more than one; the user filter passes everything through when some group
has subscribeToAll and otherwise keeps exactly the subscribed markets; and
when the user supplied an action, actOnSubscribedEvents always invokes it
with the filtered batch, even when the batch is empty. -/
theorem filter_subscribed_events_spec :
    (∀ (α : Type) (assetOf : α → String) (groups : List (List String)) (events : List α),
        (marketFilterSubscribed assetOf groups events).1
          = events.filter (fun e => groups.any (fun g2 => decide (assetOf e ∈ g2)))
        ∧ (marketFilterSubscribed assetOf groups events).2
          = (events.filter
              (fun e => decide (1 < groups.countP (fun g2 => decide (assetOf e ∈ g2))))).map
              assetOf)
    ∧ (∀ (groups : List UserGroup) (events : List UserRawEvent),
        hasSubscribeToAll groups = true → userFilterSubscribedEvents groups events = events)
    ∧ (∀ (groups : List UserGroup) (events : List UserRawEvent),
        hasSubscribeToAll groups = false →
          userFilterSubscribedEvents groups events
            = events.filter (fun e => hasMarket groups e.market))
    ∧ (∀ (α : Type) (filterFn : List α → List α) (events : List α),
        actOnSubscribedEvents filterFn events true = some (filterFn events)
        ∧ actOnSubscribedEvents filterFn events false = none) := by
  refine ⟨?_, ?_, ?_, fun α filterFn events => ⟨rfl, rfl⟩⟩
  · intro α assetOf groups events
    constructor
    · unfold marketFilterSubscribed
      try dsimp only
      apply List.filter_congr
      intro e _
      rw [getGroupIndicesForAsset_isEmpty, Bool.not_not]
    · unfold marketFilterSubscribed
      try dsimp only
      congr 1
      apply List.filter_congr
      intro e _
      rw [getGroupIndicesForAsset_length]
  · intro groups events h
    unfold userFilterSubscribedEvents
    rw [h, if_pos rfl]
  · intro groups events h
    unfold userFilterSubscribedEvents
    rw [h, if_neg (by simp)]

/-- C5 witness: the filter behavior evaluated at concrete registries, in
both the subscribeToAll and the filtering configuration. -/
theorem filter_subscribed_events_spec_witness :
    hasSubscribeToAll userGroupsAllW = true
    ∧ userFilterSubscribedEvents userGroupsAllW [unknownUEventW] = [unknownUEventW]
    ∧ hasSubscribeToAll userGroupsFilW = false
    ∧ userFilterSubscribedEvents userGroupsFilW [unknownUEventW]
        = [unknownUEventW].filter (fun e => hasMarket userGroupsFilW e.market) := by
  refine ⟨by decide, filter_subscribed_events_spec.2.1 userGroupsAllW [unknownUEventW] (by decide),
    by decide, filter_subscribed_events_spec.2.2.1 userGroupsFilW [unknownUEventW] (by decide)⟩

/-- C1: for a price_change event whose asset has a cached book (so the
upsert succeeds) with both sides present after the deltas, the pipeline
emits a synthetic price_update iff the spread is below 0.10 and the new
midpoint differs from the stored price of the entry; when it fires, exactly one
price_update is emitted and the midpoint is stored as the new price. -/
theorem pc_price_update_iff (c : BookCache) (ev : PriceChangeEventData)
    (c1 : BookCache) (ent : BookEntry) (bb aa : Level)
    (hup : upsertPriceChange c ev = Except.ok c1)
    (hent : getBookEntry c1 ev.assetId = some ent)
    (hbb : ent.bids.head? = some bb) (haa : ent.asks.head? = some aa) :
    ((pcStep c ev).2
      = MAction.upsertCall ev.assetId ::
        (if aa.price.toRat - bb.price.toRat < 1 / 10
            ∧ ent.price ≠ some (midDec bb.price aa.price)
         then [MAction.onPriceUpdateCall
                [⟨ev.assetId, .pc ev, ev.timestamp, ent.bids, ent.asks,
                  midDec bb.price aa.price, ent.midpoint, ent.spread⟩]]
         else []))
    ∧ (aa.price.toRat - bb.price.toRat < 1 / 10
        ∧ ent.price ≠ some (midDec bb.price aa.price) →
        getBookEntry (pcStep c ev).1 ev.assetId
          = some { ent with price := some (midDec bb.price aa.price) }) := by
  have hso : spreadOver c1 ev.assetId (1 / 10)
      = .ok (decide ((1 : ℚ) / 10 ≤ aa.price.toRat - bb.price.toRat)) := by
    unfold spreadOver
    rw [hent]
    try dsimp only
    rw [hbb]
    try dsimp only
    rw [haa]
  have hmid : midpointOf c1 ev.assetId = .ok (midDec bb.price aa.price) := by
    unfold midpointOf
    rw [hent]
    try dsimp only
    rw [hbb]
    try dsimp only
    rw [haa]
  by_cases hs : (1 : ℚ) / 10 ≤ aa.price.toRat - bb.price.toRat
  · have hfires : ¬(aa.price.toRat - bb.price.toRat < 1 / 10
        ∧ ent.price ≠ some (midDec bb.price aa.price)) := by
      intro hc
      exact absurd hc.1 (not_lt.mpr hs)
    have hstep : pcStep c ev = (c1, [.upsertCall ev.assetId]) := by
      unfold pcStep
      rw [hup]
      try dsimp only
      rw [hso]
      try dsimp only
      rw [if_pos (decide_eq_true hs)]
    rw [hstep, if_neg hfires]
    exact ⟨rfl, fun hc => absurd hc hfires⟩
  · have hlt : aa.price.toRat - bb.price.toRat < 1 / 10 := not_le.mp hs
    have hsd : ¬(decide ((1 : ℚ) / 10 ≤ aa.price.toRat - bb.price.toRat) = true) := by
      simpa using hs
    by_cases hp : ent.price = some (midDec bb.price aa.price)
    · have hstep : pcStep c ev = (c1, [.upsertCall ev.assetId]) := by
        unfold pcStep
        rw [hup]
        try dsimp only
        rw [hso]
        try dsimp only
        rw [if_neg hsd, hmid]
        try dsimp only
        rw [hent]
        try dsimp only
        rw [if_pos hp]
      rw [hstep, if_neg (fun hc => hc.2 hp)]
      exact ⟨rfl, fun hc => absurd hp hc.2⟩
    · have hstep : pcStep c ev
          = (setBookEntry c1 ev.assetId { ent with price := some (midDec bb.price aa.price) },
             [.upsertCall ev.assetId,
              .onPriceUpdateCall
                [⟨ev.assetId, .pc ev, ev.timestamp, ent.bids, ent.asks,
                  midDec bb.price aa.price, ent.midpoint, ent.spread⟩]]) := by
        unfold pcStep
        rw [hup]
        try dsimp only
        rw [hso]
        try dsimp only
        rw [if_neg hsd, hmid]
        try dsimp only
        rw [hent]
        try dsimp only
        rw [if_neg hp]
      rw [hstep, if_pos ⟨hlt, hp⟩]
      exact ⟨rfl, fun _ => getBookEntry_setBookEntry c1 ev.assetId _⟩

/-- C1 witness: the "Book apply" scenario — bids [(0.60, 10)],
asks [(0.62, 8)], deltas removing 0.60 and adding (0.59, 5); spread 0.03 is
below 0.10, midpoint 0.605 differs from the empty stored price, so exactly
one price_update fires and 0.605 is stored. -/
theorem pc_price_update_iff_witness :
    upsertPriceChange cW pcEvW = Except.ok c1W
    ∧ getBookEntry c1W "a" = some entW
    ∧ entW.bids.head? = some ⟨⟨59, 2⟩, ⟨5, 0⟩⟩
    ∧ entW.asks.head? = some ⟨⟨62, 2⟩, ⟨8, 0⟩⟩
    ∧ (pcStep cW pcEvW).2
      = MAction.upsertCall pcEvW.assetId ::
        (if (Level.price ⟨⟨62, 2⟩, ⟨8, 0⟩⟩).toRat - (Level.price ⟨⟨59, 2⟩, ⟨5, 0⟩⟩).toRat < 1 / 10
            ∧ entW.price ≠ some (midDec (Level.price ⟨⟨59, 2⟩, ⟨5, 0⟩⟩) (Level.price ⟨⟨62, 2⟩, ⟨8, 0⟩⟩))
         then [MAction.onPriceUpdateCall
                [⟨pcEvW.assetId, .pc pcEvW, pcEvW.timestamp, entW.bids, entW.asks,
                  midDec (Level.price ⟨⟨59, 2⟩, ⟨5, 0⟩⟩) (Level.price ⟨⟨62, 2⟩, ⟨8, 0⟩⟩),
                  entW.midpoint, entW.spread⟩]]
         else []) := by
  refine ⟨by decide, by decide, by decide, by decide, ?_⟩
  exact (pc_price_update_iff cW pcEvW c1W entW ⟨⟨59, 2⟩, ⟨5, 0⟩⟩ ⟨⟨62, 2⟩, ⟨8, 0⟩⟩
    (by decide) (by decide) (by decide) (by decide)).1

theorem ltStep_repeat (c : BookCache) (ev : LastTradePriceEventData) :
    (ltStep (ltStep c ev).1 ev).2 = [] := by
  rcases hg : getBookEntry c ev.assetId with _ | ent
  case none =>
    have hso : spreadOver c ev.assetId (1 / 10) = .error .bookNotFound := by
      unfold spreadOver
      rw [hg]
    have hstep : ltStep c ev = (c, []) := by
      unfold ltStep
      rw [hso]
    have h1 : (ltStep c ev).1 = c := by rw [hstep]
    rw [h1, hstep]
  case some =>
    rcases hbb : ent.bids.head? with _ | bb
    case none =>
      have hso : spreadOver c ev.assetId (1 / 10) = .error .incompleteBook := by
        unfold spreadOver
        rw [hg]
        try dsimp only
        rw [hbb]
      have hstep : ltStep c ev = (c, []) := by
        unfold ltStep
        rw [hso]
      have h1 : (ltStep c ev).1 = c := by rw [hstep]
      rw [h1, hstep]
    case some =>
      rcases haa : ent.asks.head? with _ | aa
      case none =>
        have hso : spreadOver c ev.assetId (1 / 10) = .error .incompleteBook := by
          unfold spreadOver
          rw [hg]
          try dsimp only
          rw [hbb]
          try dsimp only
          rw [haa]
        have hstep : ltStep c ev = (c, []) := by
          unfold ltStep
          rw [hso]
        have h1 : (ltStep c ev).1 = c := by rw [hstep]
        rw [h1, hstep]
      case some =>
        have hso : spreadOver c ev.assetId (1 / 10)
            = .ok (decide ((1 : ℚ) / 10 ≤ aa.price.toRat - bb.price.toRat)) := by
          unfold spreadOver
          rw [hg]
          try dsimp only
          rw [hbb]
          try dsimp only
          rw [haa]
        by_cases hs : (1 : ℚ) / 10 ≤ aa.price.toRat - bb.price.toRat
        · by_cases hp : ent.price = some ev.price.normalize
          · have hstep : ltStep c ev = (c, []) := by
              unfold ltStep
              rw [hso]
              try dsimp only
              rw [if_pos (decide_eq_true hs), hg]
              try dsimp only
              rw [if_pos hp]
            have h1 : (ltStep c ev).1 = c := by rw [hstep]
            rw [h1, hstep]
          · have hstep : (ltStep c ev).1
                = setBookEntry c ev.assetId { ent with price := some ev.price.normalize } := by
              unfold ltStep
              rw [hso]
              try dsimp only
              rw [if_pos (decide_eq_true hs), hg]
              try dsimp only
              rw [if_neg hp]
            rw [hstep]
            have hg2 : getBookEntry
                (setBookEntry c ev.assetId { ent with price := some ev.price.normalize })
                ev.assetId
                = some { ent with price := some ev.price.normalize } :=
              getBookEntry_setBookEntry _ _ _
            have hso2 : spreadOver
                (setBookEntry c ev.assetId { ent with price := some ev.price.normalize })
                ev.assetId (1 / 10)
                = .ok (decide ((1 : ℚ) / 10 ≤ aa.price.toRat - bb.price.toRat)) := by
              unfold spreadOver
              rw [hg2]
              try dsimp only
              rw [hbb]
              try dsimp only
              rw [haa]
            unfold ltStep
            rw [hso2]
            try dsimp only
            rw [if_pos (decide_eq_true hs), hg2]
            try dsimp only
            rw [if_pos rfl]
        · have hsd : ¬(decide ((1 : ℚ) / 10 ≤ aa.price.toRat - bb.price.toRat) = true) := by
            simpa using hs
          have hstep : ltStep c ev = (c, []) := by
            unfold ltStep
            rw [hso]
            try dsimp only
            rw [if_neg hsd]
          have h1 : (ltStep c ev).1 = c := by rw [hstep]
          rw [h1, hstep]

/-- C2: for a last_trade_price event whose asset has a cached book with both
sides present, the pipeline emits a synthetic price_update iff the spread is
at or above 0.10 and the trade price with trailing zeros stripped differs
from the stored price of the entry; when it fires the normalized price is
stored, and running the same event again right away emits nothing. -/
theorem lt_price_update_iff (c : BookCache) (ev : LastTradePriceEventData)
    (ent : BookEntry) (bb aa : Level)
    (hent : getBookEntry c ev.assetId = some ent)
    (hbb : ent.bids.head? = some bb) (haa : ent.asks.head? = some aa) :
    ((ltStep c ev).2
      = (if (1 : ℚ) / 10 ≤ aa.price.toRat - bb.price.toRat
            ∧ ent.price ≠ some ev.price.normalize
         then [MAction.onPriceUpdateCall
                [⟨ev.assetId, .lt ev, ev.timestamp, ent.bids, ent.asks,
                  ev.price.normalize, ent.midpoint, ent.spread⟩]]
         else []))
    ∧ ((1 : ℚ) / 10 ≤ aa.price.toRat - bb.price.toRat
        ∧ ent.price ≠ some ev.price.normalize →
        getBookEntry (ltStep c ev).1 ev.assetId
          = some { ent with price := some ev.price.normalize })
    ∧ (ltStep (ltStep c ev).1 ev).2 = [] := by
  have hso : spreadOver c ev.assetId (1 / 10)
      = .ok (decide ((1 : ℚ) / 10 ≤ aa.price.toRat - bb.price.toRat)) := by
    unfold spreadOver
    rw [hent]
    try dsimp only
    rw [hbb]
    try dsimp only
    rw [haa]
  refine ⟨?_, ?_, ltStep_repeat c ev⟩
  · by_cases hs : (1 : ℚ) / 10 ≤ aa.price.toRat - bb.price.toRat
    · by_cases hp : ent.price = some ev.price.normalize
      · have hstep : ltStep c ev = (c, []) := by
          unfold ltStep
          rw [hso]
          try dsimp only
          rw [if_pos (decide_eq_true hs), hent]
          try dsimp only
          rw [if_pos hp]
        rw [hstep, if_neg (fun hc => hc.2 hp)]
      · have hstep : (ltStep c ev).2
            = [MAction.onPriceUpdateCall
                [⟨ev.assetId, .lt ev, ev.timestamp, ent.bids, ent.asks,
                  ev.price.normalize, ent.midpoint, ent.spread⟩]] := by
          unfold ltStep
          rw [hso]
          try dsimp only
          rw [if_pos (decide_eq_true hs), hent]
          try dsimp only
          rw [if_neg hp]
        rw [hstep, if_pos ⟨hs, hp⟩]
    · have hsd : ¬(decide ((1 : ℚ) / 10 ≤ aa.price.toRat - bb.price.toRat) = true) := by
        simpa using hs
      have hstep : ltStep c ev = (c, []) := by
        unfold ltStep
        rw [hso]
        try dsimp only
        rw [if_neg hsd]
      have hfires : ¬((1 : ℚ) / 10 ≤ aa.price.toRat - bb.price.toRat
          ∧ ent.price ≠ some ev.price.normalize) :=
        fun hc => absurd hc.1 hs
      rw [hstep, if_neg hfires]
  · intro hc
    have hstep : (ltStep c ev).1
        = setBookEntry c ev.assetId { ent with price := some ev.price.normalize } := by
      unfold ltStep
      rw [hso]
      try dsimp only
      rw [if_pos (decide_eq_true hc.1), hent]
      try dsimp only
      rw [if_neg hc.2]
    rw [hstep]
    exact getBookEntry_setBookEntry _ _ _

/-- C2 witness: the "Derived from last trade" scenario — spread 0.12 is at
or above 0.10, trade price "0.7000" normalizes to "0.7", differing from the
empty stored price, so one price_update fires; repeating the identical
trade event immediately emits nothing. -/
theorem lt_price_update_iff_witness :
    getBookEntry cW2 "a" = some entW2
    ∧ entW2.bids.head? = some ⟨⟨50, 2⟩, ⟨10, 0⟩⟩
    ∧ entW2.asks.head? = some ⟨⟨62, 2⟩, ⟨8, 0⟩⟩
    ∧ ((ltStep cW2 ltEvW).2
        = (if (1 : ℚ) / 10 ≤ (Level.price ⟨⟨62, 2⟩, ⟨8, 0⟩⟩).toRat
              - (Level.price ⟨⟨50, 2⟩, ⟨10, 0⟩⟩).toRat
              ∧ entW2.price ≠ some ltEvW.price.normalize
           then [MAction.onPriceUpdateCall
                  [⟨ltEvW.assetId, .lt ltEvW, ltEvW.timestamp, entW2.bids, entW2.asks,
                    ltEvW.price.normalize, entW2.midpoint, entW2.spread⟩]]
           else []))
    ∧ (ltStep (ltStep cW2 ltEvW).1 ltEvW).2 = [] := by
  refine ⟨by decide, by decide, by decide, ?_, ?_⟩
  · exact (lt_price_update_iff cW2 ltEvW entW2 ⟨⟨50, 2⟩, ⟨10, 0⟩⟩ ⟨⟨62, 2⟩, ⟨8, 0⟩⟩
      (by decide) (by decide) (by decide)).1
  · exact (lt_price_update_iff cW2 ltEvW entW2 ⟨⟨50, 2⟩, ⟨10, 0⟩⟩ ⟨⟨62, 2⟩, ⟨8, 0⟩⟩
      (by decide) (by decide) (by decide)).2.2

end PolyWS
